import Mathlib

/- Shallow embedding of the migration scripts
   migrate_artworks.py and migrate_images.py:
   a schema-driven record migration engine (column mapping, batching,
   conflict-aware upsert) and an asset transfer pipeline. -/

set_option maxHeartbeats 1000000

/-- Dynamically typed scalar cell value of a row (Python values passed
through psycopg; Decimal is kept as-is by the code). -/
inductive Value where
  | null
  | int (n : Int)
  | str (s : String)
  | bool (b : Bool)
  | decimal (unscaled : Int) (scale : Nat)
deriving DecidableEq, Repr

/-- A row: Python dict from column name to value, as an association list. -/
abbrev Row := List (String × Value)

/-- Python r.get(s): None when the key is missing. -/
def rowGet (r : Row) (k : String) : Option Value :=
  (r.find? (fun p => p.1 == k)).map (fun p => p.2)

/- ---------- migrate_artworks.py: normalize_table_name ---------- -/

/-- Python str.split(".") on a character list: splits on every dot,
"".split(".") = [""]. -/
def splitDot : List Char → List (List Char)
  | [] => [[]]
  | c :: cs =>
    if c = '.' then [] :: splitDot cs
    else
      match splitDot cs with
      | p :: ps => (c :: p) :: ps
      | [] => [[c]]

/-- normalize_table_name: parses [schema.]name; len(parts)==1 gives
(None, name), ==2 gives (schema, name), otherwise ValueError. -/
def normalize_table_name (table : List Char) :
    Except (List Char) (Option (List Char) × List Char) :=
  match splitDot table with
  | [t] => Except.ok (none, t)
  | [s, t] => Except.ok (some s, t)
  | _ => Except.error table

/- ---------- migrate_artworks.py: build_mapping and force-add ---------- -/

/-- Python string whitespace characters used by str.strip(). -/
def isPyWS (c : Char) : Bool :=
  c = ' ' || c = '\t' || c = '\n' || c = '\r' || c = '\x0b' || c = '\x0c'

/-- Python str.strip() with no argument: trim whitespace on both ends. -/
def pyStrip (s : String) : String :=
  String.mk (((s.toList.dropWhile isPyWS).reverse.dropWhile isPyWS).reverse)

/-- Membership in the stripped exclude set
`set(c.strip() for c in excludes if c and c.strip())` of build_mapping. -/
def inExclude (excludes : List String) (s : String) : Bool :=
  excludes.any (fun c => c ≠ "" && pyStrip c ≠ "" && pyStrip c == s)

/-- Python dict assignment m[k] = v on an insertion-ordered dict:
update in place when the key exists, else append. -/
def insertKV (m : List (String × String)) (k v : String) :
    List (String × String) :=
  if m.any (fun p => p.1 == k) then
    m.map (fun p => if p.1 == k then (k, v) else p)
  else m ++ [(k, v)]

/-- Python `k in m` on a dict. -/
def hasKey (m : List (String × String)) (k : String) : Bool :=
  m.any (fun p => p.1 == k)

/-- Python m[k] lookup returning an option. -/
def lookupKV (m : List (String × String)) (k : String) : Option String :=
  (m.find? (fun p => p.1 == k)).map (fun p => p.2)

/-- build_mapping: explicit mappings first (skipping excluded sources and
destinations absent from dest_columns), then same-name mappings for
remaining source columns. -/
def build_mapping (source_columns dest_columns : List String)
    (explicit_map : List (String × String)) (excludes : List String) :
    List (String × String) :=
  let m1 := explicit_map.foldl
    (fun m sd =>
      if inExclude excludes sd.1 then m
      else if dest_columns.contains sd.2 then insertKV m sd.1 sd.2
      else m) []
  source_columns.foldl
    (fun m s =>
      if hasKey m s then m
      else if inExclude excludes s then m
      else if dest_columns.contains s then insertKV m s s
      else m) m1

/-- The mapping after main's force-add step: ensure the id column is
included (to preserve UUIDs) when absent from the mapping but present in
both schemas. -/
def finalMapping (id_column : String) (source_columns dest_columns : List String)
    (explicit_map : List (String × String)) (excludes : List String) :
    List (String × String) :=
  if !hasKey (build_mapping source_columns dest_columns explicit_map excludes)
        id_column
      && source_columns.contains id_column
      && dest_columns.contains id_column then
    insertKV (build_mapping source_columns dest_columns explicit_map excludes)
      id_column id_column
  else build_mapping source_columns dest_columns explicit_map excludes

/-- The invariant the specification asserts for the produced mapping:
destination-existing values, source-existing keys, no excluded keys. -/
def mappingInvariant (source_columns dest_columns excludes : List String)
    (m : List (String × String)) : Prop :=
  (∀ p ∈ m, dest_columns.contains p.2 = true) ∧
  (∀ p ∈ m, source_columns.contains p.1 = true) ∧
  (∀ p ∈ m, inExclude excludes p.1 = false)

/- ---------- migrate_artworks.py: chunked ---------- -/

/-- Loop body state of chunked: the pending batch accumulated so far. -/
def chunkedAux (size : Nat) : List α → List α → List (List α)
  | [], batch => if batch.isEmpty then [] else [batch]
  | x :: xs, batch =>
    if size ≤ (batch ++ [x]).length then (batch ++ [x]) :: chunkedAux size xs []
    else chunkedAux size xs (batch ++ [x])

/-- chunked: yield lists of `size` items, the final partial batch last. -/
def chunked (l : List α) (size : Nat) : List (List α) :=
  chunkedAux size l []

/- ---------- migrate_artworks.py: upsert_rows ---------- -/

/-- Conflict policy from --on-conflict. -/
inductive Policy where
  | skip
  | update
  | error
deriving DecidableEq, Repr

/-- The destination row written for a source row: the mapping's
destination columns paired with `_adapt_value(r.get(src))`; a missing key
becomes an explicit null (`_adapt_value` is the identity in the model,
as in the code it only preserves Decimal values unchanged). -/
def destRow (mapping : List (String × String)) (r : Row) : Row :=
  mapping.map (fun p => (p.2, (rowGet r p.1).getD Value.null))

/-- Values of the conflict-target columns of a destination row. -/
def rowKey (target : List String) (v : Row) : List (Option Value) :=
  target.map (fun c => rowGet v c)

/-- A row conflicts when some destination row has equal conflict-target
values. -/
def hasConflict (db : List Row) (target : List String) (v : Row) : Bool :=
  db.any (fun e => rowKey target e == rowKey target v)

/-- ON CONFLICT DO NOTHING: insert each row unless it conflicts with the
current destination state (earlier rows of the batch included). -/
def skipFold (target : List String) (db : List Row) (vals : List Row) :
    List Row :=
  vals.foldl (fun d v => if hasConflict d target v then d else d ++ [v]) db

/-- ON CONFLICT DO UPDATE: overwrite every non-conflict-target mapped
column of the matching row with the incoming value. -/
def updateRow (target : List String) (e v : Row) : Row :=
  v.foldl (fun row cv =>
    if target.contains cv.1 then row
    else if row.any (fun p => p.1 == cv.1) then
      row.map (fun p => if p.1 == cv.1 then (cv.1, cv.2) else p)
    else row ++ [cv]) e

/-- Update-policy execution of one batch. -/
def updateFold (target : List String) (db : List Row) (vals : List Row) :
    List Row :=
  vals.foldl (fun d v =>
    if hasConflict d target v then
      d.map (fun e => if rowKey target e == rowKey target v then
        updateRow target e v else e)
    else d ++ [v]) db

/-- Error policy (plain INSERT): the database raises a unique violation at
the first conflicting row; earlier uncommitted inserts stay in the
transaction until then. -/
def errInsert (target : List String) : List Row → List Row →
    Except Unit (List Row)
  | db, [] => Except.ok db
  | db, v :: vs =>
    if hasConflict db target v then Except.error ()
    else errInsert target (db ++ [v]) vs

/-- upsert_rows: returns (result of the call, values built for the
statement). The result carries the transaction-local destination state and
the returned (inserted_count, skipped_or_updated_count); an error is a
unique-violation exception under the error policy. Empty batches return
early before any statement building; values are built before the dry-run
check, and dry runs write nothing and report (0, 0). -/
def upsert_rows (db : List Row) (mapping : List (String × String))
    (rows : List Row) (on_conflict : Policy) (conflict_target : List String)
    (dry_run : Bool) :
    Except Unit (List Row × Nat × Nat) × Option (List Row) :=
  if rows.isEmpty then (Except.ok (db, 0, 0), none)
  else
    let vals := rows.map (destRow mapping)
    if dry_run then (Except.ok (db, 0, 0), some vals)
    else
      match on_conflict with
      | Policy.skip =>
        (Except.ok (skipFold conflict_target db vals, vals.length, 0), some vals)
      | Policy.update =>
        (Except.ok (updateFold conflict_target db vals, vals.length, 0), some vals)
      | Policy.error =>
        match errInsert conflict_target db vals with
        | Except.ok db2 => (Except.ok (db2, vals.length, 0), some vals)
        | Except.error e => (Except.error e, some vals)

/-- main's batch loop: apply upsert_rows per batch, commit after each
successful batch, accumulate the migrated count; an exception aborts the
run, rolls the current batch's uncommitted writes back and leaves the
previously committed state in place. Returns (committed destination state,
migrated count, aborted flag). -/
def runBatches (mapping : List (String × String)) (on_conflict : Policy)
    (conflict_target : List String) (dry_run : Bool) :
    List Row → List (List Row) → List Row × Nat × Bool
  | db, [] => (db, 0, false)
  | db, b :: rest =>
    match (upsert_rows db mapping b on_conflict conflict_target dry_run).1 with
    | Except.ok (db2, ins, _) =>
      let committed := if dry_run then db else db2
      let r := runBatches mapping on_conflict conflict_target dry_run committed rest
      (r.1, ins + r.2.1, r.2.2)
    | Except.error _ => (db, 0, true)

/-- The number of genuinely new rows of a batch: rows whose conflict-target
values do not already occur in the destination. -/
def newRowCount (db : List Row) (mapping : List (String × String))
    (target : List String) (rows : List Row) : Nat :=
  (rows.map (destRow mapping)).countP (fun v => !(hasConflict db target v))

/- ---------- migrate_images.py: join_url ---------- -/

/-- Python s.rstrip("/") on a character list. -/
def rstripSlash (s : List Char) : List Char :=
  ((s.reverse).dropWhile (fun c => c = '/')).reverse

/-- Python s.lstrip("/") on a character list. -/
def lstripSlash (s : List Char) : List Char :=
  s.dropWhile (fun c => c = '/')

/-- join_url: base.rstrip("/") + "/" + path.lstrip("/"). -/
def join_url (base path : List Char) : List Char :=
  rstripSlash base ++ '/' :: lstripSlash path

/- ---------- migrate_images.py: asset transfer pipeline ---------- -/

/-- One source image row (query_images result). -/
structure ImageRow where
  id : Nat
  artwork_id : String
  image_path : String
  is_main_image : Bool
deriving DecidableEq, Repr

/-- CLI arguments of migrate_images.py relevant to the per-asset loop.
fetchBase and uploadBase model --fetch-prefix and --upload-prefix
(argparse gives None when unset); uploadUrl models --upload-url. -/
structure XferArgs where
  fetchBase : String
  uploadBase : Option String
  uploadUrl : Option String
  cookie : String
  uploadFieldFile : String
  uploadFieldIsMain : String
  dryRun : Bool
  skipDownload : Bool
  cleanup : Bool
deriving DecidableEq, Repr

/-- External world outcomes for one asset: whether the local file exists
before processing, and the curl exit codes the two transfers would get. -/
structure ItemEnv where
  localExists : Bool
  fetchCode : Nat
  uploadCode : Nat
deriving DecidableEq, Repr

/-- External calls actually executed (dry-run prints instead of calling). -/
inductive Event where
  | fetch (url : String) (dest : String)
  | post (url : String) (filePath : String)
  | remove (path : String)
deriving DecidableEq, Repr

/-- Error line printed by the except-branch: identity and path of the
failing asset plus the exception text. -/
structure Report where
  imageId : Nat
  imagePath : String
  message : String
deriving DecidableEq, Repr

/-- Counters of the transfer loop. -/
structure Counters where
  total : Nat
  downloaded : Nat
  uploaded : Nat
  skippedDownload : Nat
deriving DecidableEq, Repr

/-- Python truthiness of an optional string argument. -/
def truthy : Option String → Bool
  | none => false
  | some s => s ≠ ""

/-- join_url lifted to Lean strings. -/
def joinUrlS (base path : String) : String :=
  String.mk (join_url base.toList path.toList)

/-- os.path.flatten for two components: an absolute second component wins;
otherwise a single separator is placed between the parts. -/
def pathJoin (a b : String) : String :=
  if b.toList.head? = some '/' then b
  else if a = "" || a.toList.getLast? = some '/' then a ++ b
  else a ++ "/" ++ b

/-- Does the character list contain the template as a contiguous part
(Python `sub in s`)? -/
def containsSub (hay needle : List Char) : Bool :=
  match hay with
  | [] => needle.isEmpty
  | _ :: t => needle.isPrefixOf hay || containsSub t needle

/-- resolve_upload_url: an upload base wins; else a template containing
the artwork id placeholder is formatted; else a plain upload url is used
as a last resort; else a RuntimeError. -/
def resolve_upload_url (args : XferArgs) (artwork_id : String) :
    Except String String :=
  if truthy args.uploadBase then
    Except.ok (joinUrlS (args.uploadBase.getD "")
      ("artworks/" ++ artwork_id ++ "/images"))
  else if truthy args.uploadUrl &&
      containsSub (args.uploadUrl.getD "").toList "{artwork_id}".toList then
    Except.ok ((args.uploadUrl.getD "").replace "{artwork_id}" artwork_id)
  else if truthy args.uploadUrl then
    Except.ok (args.uploadUrl.getD "")
  else Except.error "Unable to resolve upload URL"

/-- The upload half of the per-asset try-block: resolve the URL, run the
upload curl, then the best-effort cleanup; `fileNow` tells whether the
local file exists at this point, dl and sk are the download-phase counter
increments and evs the events issued so far. -/
def uploadPhase (args : XferArgs) (row : ImageRow) (localPath : String)
    (env : ItemEnv) (fileNow : Bool) (dl sk : Nat) (evs : List Event) :
    Counters × List Event × Option Report :=
  match resolve_upload_url args row.artwork_id with
  | Except.error msg =>
    (⟨1, dl, 0, sk⟩, evs, some ⟨row.id, row.image_path, msg⟩)
  | Except.ok destUrl =>
    if args.dryRun then (⟨1, dl, 1, sk⟩, evs, none)
    else
      let evs2 := evs ++ [Event.post destUrl localPath]
      if env.uploadCode ≠ 0 then
        (⟨1, dl, 0, sk⟩, evs2, some ⟨row.id, row.image_path, "Upload failed"⟩)
      else if args.cleanup && fileNow then
        (⟨1, dl, 1, sk⟩, evs2 ++ [Event.remove localPath], none)
      else (⟨1, dl, 1, sk⟩, evs2, none)

/-- One iteration of the main loop of migrate_images.py over one row,
given the external outcomes in env: counter increments, executed external
calls, and the error report when the try-block raised. -/
def processOne (args : XferArgs) (saveRoot : String) (row : ImageRow)
    (env : ItemEnv) : Counters × List Event × Option Report :=
  let fetchUrl := joinUrlS args.fetchBase row.image_path
  let localPath := pathJoin saveRoot row.image_path
  if args.skipDownload && env.localExists then
    uploadPhase args row localPath env env.localExists 0 1 []
  else if args.dryRun then
    uploadPhase args row localPath env env.localExists 1 0 []
  else if env.fetchCode ≠ 0 then
    (⟨1, 0, 0, 0⟩, [Event.fetch fetchUrl localPath],
      some ⟨row.id, row.image_path, "Download failed"⟩)
  else
    uploadPhase args row localPath env true 1 0 [Event.fetch fetchUrl localPath]

/-- Pointwise sum of counters. -/
def addCounters (a b : Counters) : Counters :=
  ⟨a.total + b.total, a.downloaded + b.downloaded,
    a.uploaded + b.uploaded, a.skippedDownload + b.skippedDownload⟩

/-- Combine the outcome of two consecutive stretches of the loop. -/
def combineR (a b : Counters × List Event × List Report) :
    Counters × List Event × List Report :=
  (addCounters a.1 b.1, a.2.1 ++ b.2.1, a.2.2 ++ b.2.2)

/-- The outcome of one iteration, as a stretch of length one. -/
def oneResult (r : Counters × List Event × Option Report) :
    Counters × List Event × List Report :=
  (r.1, r.2.1, r.2.2.toList)

/-- The whole transfer loop over its rows and their external outcomes. -/
def runAll (args : XferArgs) (saveRoot : String) :
    List (ImageRow × ItemEnv) → Counters × List Event × List Report
  | [] => (⟨0, 0, 0, 0⟩, [], [])
  | (row, env) :: rest =>
    combineR (oneResult (processOne args saveRoot row env))
      (runAll args saveRoot rest)

/-- Is the event a download (curl fetch) call? -/
def isFetch : Event → Bool
  | Event.fetch _ _ => true
  | _ => false

/- ---------- C9: normalize_table_name ---------- -/

theorem splitDot_ne_nil (s : List Char) : splitDot s ≠ [] := by
  cases s with
  | nil => simp [splitDot]
  | cons c cs =>
    simp only [splitDot]
    split
    · simp
    · cases h : splitDot cs <;> simp

theorem splitDot_length (s : List Char) :
    (splitDot s).length = s.count '.' + 1 := by
  induction s with
  | nil => simp [splitDot]
  | cons c cs ih =>
    by_cases hc : c = '.'
    · subst hc
      simp [splitDot, List.count_cons, ih]
    · simp only [splitDot, if_neg hc]
      cases h : splitDot cs with
      | nil => exact absurd h (splitDot_ne_nil cs)
      | cons p ps =>
        rw [h] at ih
        simp only [List.length_cons] at ih ⊢
        simp [List.count_cons, hc, ih]

theorem splitDot_count_zero (s : List Char) (h : s.count '.' = 0) :
    splitDot s = [s] := by
  induction s with
  | nil => simp [splitDot]
  | cons c cs ih =>
    have h2 : cs.count '.' = 0 ∧ ¬ c = '.' := by
      simpa [List.count_cons] using h
    simp only [splitDot, if_neg h2.2, ih h2.1]

theorem splitDot_count_one (s : List Char) (h : s.count '.' = 1) :
    splitDot s = [s.takeWhile (fun c => !(c == '.')),
      (s.dropWhile (fun c => !(c == '.'))).tail] := by
  induction s with
  | nil => simp at h
  | cons c cs ih =>
    by_cases hc : c = '.'
    · subst hc
      have hcs : cs.count '.' = 0 := by
        simp [List.count_cons] at h
        omega
      simp [splitDot, splitDot_count_zero cs hcs, List.takeWhile_cons, List.dropWhile_cons]
    · have hcs : cs.count '.' = 1 := by
        by_cases hb : ('.' : Char) = c
        · exact absurd hb.symm hc
        · simpa [List.count_cons, hb] using h
      simp only [splitDot, if_neg hc, ih hcs]
      simp [List.takeWhile_cons, List.dropWhile_cons, hc]

/-- C9: parsing a table identifier returns (no schema, whole string) when it
has no dot, (text before the dot, text after) when it has exactly one, and
raises the invalid-table-name error exactly when it has two or more dots. -/
theorem c9_normalize_table_name (s : List Char) :
    normalize_table_name s =
      if 2 ≤ s.count '.' then Except.error s
      else if s.count '.' = 0 then Except.ok (none, s)
      else Except.ok (some (s.takeWhile (fun c => !(c == '.'))),
        (s.dropWhile (fun c => !(c == '.'))).tail) := by
  by_cases h2 : 2 ≤ s.count '.'
  · have hl : 3 ≤ (splitDot s).length := by
      rw [splitDot_length]
      omega
    rw [if_pos h2]
    cases hsp : splitDot s with
    | nil => exact absurd hsp (splitDot_ne_nil s)
    | cons a t =>
      cases t with
      | nil => rw [hsp] at hl; simp at hl
      | cons b t2 =>
        cases t2 with
        | nil => rw [hsp] at hl; simp at hl
        | cons d t3 =>
          simp only [normalize_table_name]
          rw [hsp]
  · rw [if_neg h2]
    by_cases h0 : s.count '.' = 0
    · rw [if_pos h0]
      simp only [normalize_table_name]
      rw [splitDot_count_zero s h0]
    · rw [if_neg h0]
      have h1 : s.count '.' = 1 := by omega
      simp only [normalize_table_name]
      rw [splitDot_count_one s h1]

/- ---------- C10: join_url ---------- -/

/-- C10: join_url returns the base with trailing slashes removed, a single
slash, and the path with leading slashes removed; hence extra trailing
slashes on the base and leading slashes on the path do not change it. -/
theorem c10_join_url (base path : List Char) :
    join_url base path = rstripSlash base ++ '/' :: lstripSlash path ∧
    join_url (base ++ ['/']) path = join_url base path ∧
    join_url base ('/' :: path) = join_url base path := by
  refine ⟨rfl, ?_, ?_⟩
  · simp [join_url, rstripSlash, List.reverse_append, List.dropWhile_cons]
  · simp [join_url, lstripSlash, List.dropWhile_cons]


/- ---------- C5: chunked ---------- -/

theorem chunkedAux_join {α : Type} (size : Nat) (xs : List α) :
    ∀ batch : List α, (chunkedAux size xs batch).flatten = batch ++ xs := by
  induction xs with
  | nil => intro batch; cases batch <;> simp [chunkedAux]
  | cons x xs ih =>
    intro batch
    simp only [chunkedAux]
    split
    · simp [ih]
    · simp [ih]

theorem chunkedAux_mem_length {α : Type} (size : Nat) (xs : List α) :
    ∀ batch : List α, batch.length < size →
      ∀ b ∈ chunkedAux size xs batch, b.length ≤ size := by
  induction xs with
  | nil =>
    intro batch hb b hmem
    simp only [chunkedAux] at hmem
    split at hmem
    · simp at hmem
    · rw [List.mem_singleton] at hmem
      subst hmem
      omega
  | cons x xs ih =>
    intro batch hb b hmem
    simp only [chunkedAux] at hmem
    split at hmem
    case isTrue h =>
      rcases List.mem_cons.mp hmem with rfl | hm
      · simp
        omega
      · exact ih [] (by simp only [List.length_nil]; omega) b hm
    case isFalse h =>
      refine ih (batch ++ [x]) ?_ b hmem
      simp at h ⊢
      omega

theorem chunkedAux_dropLast_length {α : Type} (size : Nat) (xs : List α) :
    ∀ batch : List α, batch.length < size →
      ∀ b ∈ (chunkedAux size xs batch).dropLast, b.length = size := by
  induction xs with
  | nil =>
    intro batch hb b hmem
    simp only [chunkedAux] at hmem
    split at hmem <;> simp at hmem
  | cons x xs ih =>
    intro batch hb b hmem
    simp only [chunkedAux] at hmem
    split at hmem
    case isTrue h =>
      have hfull : (batch ++ [x]).length = size := by
        simp at h ⊢
        omega
      cases hrest : chunkedAux size xs ([] : List α) with
      | nil => rw [hrest] at hmem; simp at hmem
      | cons r rs =>
        rw [hrest, List.dropLast_cons₂] at hmem
        rcases List.mem_cons.mp hmem with rfl | hm
        · exact hfull
        · refine ih [] (by simp only [List.length_nil]; omega) b ?_
          rw [hrest]
          exact hm
    case isFalse h =>
      refine ih (batch ++ [x]) ?_ b hmem
      simp at h ⊢
      omega

theorem chunkedAux_length {α : Type} (size : Nat) (xs : List α) :
    ∀ batch : List α, batch.length < size →
      (chunkedAux size xs batch).length =
        (batch.length + xs.length + size - 1) / size := by
  induction xs with
  | nil =>
    intro batch hb
    cases batch with
    | nil =>
      simp only [chunkedAux, List.isEmpty_nil, if_pos]
      symm
      simp only [List.length_nil]
      apply Nat.div_eq_of_lt
      omega
    | cons a t =>
      simp only [chunkedAux]
      rw [if_neg (by simp)]
      have harith : (a :: t).length + ([] : List α).length + size - 1 =
          t.length + size := by
        simp only [List.length_cons, List.length_nil]
        omega
      rw [harith, Nat.add_div_right _ (by omega : 0 < size),
        Nat.div_eq_of_lt (by simp at hb; omega)]
      simp
  | cons x xs ih =>
    intro batch hb
    simp only [chunkedAux]
    split
    case isTrue h =>
      have hfull : batch.length + 1 = size := by
        simp at h
        omega
      rw [List.length_cons, ih [] (by simp only [List.length_nil]; omega)]
      have harith : batch.length + (x :: xs).length + size - 1 =
          (([] : List α).length + xs.length + size - 1) + size := by
        simp
        omega
      rw [harith, Nat.add_div_right _ (by omega : 0 < size)]
    case isFalse h =>
      rw [ih (batch ++ [x]) (by simp at h ⊢; omega)]
      congr 1
      simp
      omega

/-- C5: for a batch size of at least one, chunked yields ceil(M/N) batches,
each of at most N rows, every batch but the last of exactly N rows, and
their concatenation is the input. -/
theorem c5_chunked_spec {α : Type} (l : List α) (n : Nat) (h : 1 ≤ n) :
    (chunked l n).length = (l.length + n - 1) / n ∧
    (∀ b ∈ chunked l n, b.length ≤ n) ∧
    (∀ b ∈ (chunked l n).dropLast, b.length = n) ∧
    (chunked l n).flatten = l := by
  refine ⟨?_, ?_, ?_, ?_⟩
  · have hx := chunkedAux_length n l [] (by simp only [List.length_nil]; omega)
    simpa [chunked] using hx
  · exact fun b hb => chunkedAux_mem_length n l []
      (by simp only [List.length_nil]; omega) b hb
  · exact fun b hb => chunkedAux_dropLast_length n l []
      (by simp only [List.length_nil]; omega) b hb
  · simpa [chunked] using chunkedAux_join n l []

/-- Concrete instance of the chunking theorem at n = 2 over three rows. -/
theorem c5_chunked_spec_witness :
    (chunked [1, 2, 3] 2).length = 2 ∧ (chunked [1, 2, 3] 2).flatten = [1, 2, 3] := by
  have h := c5_chunked_spec [1, 2, 3] 2 (by decide)
  refine ⟨?_, h.2.2.2⟩
  rw [h.1]
  decide

/- ---------- C3 / C4: column mapping invariants ---------- -/

theorem mem_insertKV (m : List (String × String)) (k v : String) :
    ∀ p ∈ insertKV m k v, p ∈ m ∨ p = (k, v) := by
  intro p hp
  unfold insertKV at hp
  split at hp
  · rcases List.mem_map.mp hp with ⟨q, hq, hq2⟩
    by_cases hqk : (q.1 == k) = true
    · right
      rw [if_pos hqk] at hq2
      exact hq2.symm
    · left
      rw [if_neg hqk] at hq2
      rw [← hq2]
      exact hq
  · rcases List.mem_append.mp hp with h | h
    · left; exact h
    · right
      exact List.mem_singleton.mp h

theorem hasKey_insertKV_self (m : List (String × String)) (k v : String) :
    hasKey (insertKV m k v) k = true := by
  unfold insertKV hasKey
  split
  case isTrue h =>
    rcases List.any_eq_true.mp h with ⟨q, hq, hqk⟩
    refine List.any_eq_true.mpr ⟨(k, v), List.mem_map.mpr ⟨q, hq, ?_⟩, by simp⟩
    rw [if_pos hqk]
  case isFalse h =>
    refine List.any_eq_true.mpr ⟨(k, v), List.mem_append.mpr (Or.inr ?_), by simp⟩
    simp

theorem mem_foldl_insert {β : Type} (P : String × String → Prop)
    (f : List (String × String) → β → List (String × String)) :
    ∀ (l : List β) (init : List (String × String)),
      (∀ m b, b ∈ l → ∀ p ∈ f m b, p ∈ m ∨ P p) →
      (∀ p ∈ init, P p) → ∀ p ∈ l.foldl f init, P p := by
  intro l
  induction l with
  | nil =>
    intro init _ hinit p hp
    exact hinit p hp
  | cons b bs ih =>
    intro init hstep hinit p hp
    refine ih (f init b) (fun m c hc => hstep m c (List.mem_cons_of_mem b hc))
      ?_ p hp
    intro q hq
    rcases hstep init b (List.mem_cons_self b bs) q hq with h | h
    · exact hinit q h
    · exact h

theorem build_mapping_pairs (sc dc : List String)
    (em : List (String × String)) (ex : List String) :
    ∀ p ∈ build_mapping sc dc em ex,
      dc.contains p.2 = true ∧ inExclude ex p.1 = false ∧
      (hasKey em p.1 = true ∨ (sc.contains p.1 = true ∧ p.2 = p.1)) := by
  unfold build_mapping
  refine mem_foldl_insert _ _ sc _ ?_ ?_
  · intro m s hs p hp
    split at hp
    case isTrue _ => exact Or.inl hp
    case isFalse _ =>
      split at hp
      case isTrue _ => exact Or.inl hp
      case isFalse hex =>
        split at hp
        case isTrue hdc =>
          rcases mem_insertKV m s s p hp with h | h
          · exact Or.inl h
          · subst h
            exact Or.inr ⟨hdc, by simpa using hex,
              Or.inr ⟨by simpa using hs, rfl⟩⟩
        case isFalse _ => exact Or.inl hp
  · refine mem_foldl_insert _ _ em _ ?_ ?_
    · intro m sd hsd p hp
      split at hp
      case isTrue _ => exact Or.inl hp
      case isFalse hex =>
        split at hp
        case isTrue hdc =>
          rcases mem_insertKV m sd.1 sd.2 p hp with h | h
          · exact Or.inl h
          · subst h
            refine Or.inr ⟨hdc, by simpa using hex, Or.inl ?_⟩
            exact List.any_eq_true.mpr ⟨sd, hsd, by simp⟩
        case isFalse _ => exact Or.inl hp
    · intro p hp
      simp at hp

theorem finalMapping_pairs (idc : String) (sc dc : List String)
    (em : List (String × String)) (ex : List String) :
    ∀ p ∈ finalMapping idc sc dc em ex,
      dc.contains p.2 = true ∧
      (inExclude ex p.1 = false ∨ p = (idc, idc)) ∧
      (hasKey em p.1 = true ∨ sc.contains p.1 = true) ∧
      (hasKey em p.1 = false → p.2 = p.1) := by
  intro p hp
  unfold finalMapping at hp
  split at hp
  case isTrue hcond =>
    have hc := hcond
    simp only [Bool.and_eq_true, Bool.not_eq_true'] at hc
    rcases mem_insertKV _ idc idc p hp with h | h
    · rcases build_mapping_pairs sc dc em ex p h with ⟨h1, h2, h3⟩
      refine ⟨h1, Or.inl h2, ?_, ?_⟩
      · rcases h3 with h3 | h3
        · exact Or.inl h3
        · exact Or.inr h3.1
      · intro hem
        rcases h3 with h3 | h3
        · rw [h3] at hem; cases hem
        · exact h3.2
    · subst h
      exact ⟨hc.2, Or.inr rfl, Or.inr hc.1.2, fun _ => rfl⟩
  case isFalse _ =>
    rcases build_mapping_pairs sc dc em ex p hp with ⟨h1, h2, h3⟩
    refine ⟨h1, Or.inl h2, ?_, ?_⟩
    · rcases h3 with h3 | h3
      · exact Or.inl h3
      · exact Or.inr h3.1
    · intro hem
      rcases h3 with h3 | h3
      · rw [h3] at hem; cases hem
      · exact h3.2

/-- C3 counterexample: with source columns [id], destination columns
[id, a], explicit map x -> a, exclusions [id] and id column id, the final
mapping is [(x, a), (id, id)]: the key x is not a source column and the
key id is excluded, so the claimed invariant fails. -/
theorem c3_counterexample :
    finalMapping "id" ["id"] ["id", "a"] [("x", "a")] ["id"] =
      [("x", "a"), ("id", "id")] ∧
    ¬ mappingInvariant ["id"] ["id", "a"] ["id"]
      (finalMapping "id" ["id"] ["id", "a"] [("x", "a")] ["id"]) := by
  constructor
  · rfl
  · intro h
    exact absurd (h.2.1 ("x", "a") (by decide)) (by decide)

/-- C3 amended: every value of the final mapping is a destination column;
every key is a key of the explicit map or a source column; and a key in
the exclude set can only be the force-added identity column. -/
theorem c3_mapping_amended (idc : String) (sc dc : List String)
    (em : List (String × String)) (ex : List String) :
    ∀ p ∈ finalMapping idc sc dc em ex,
      dc.contains p.2 = true ∧
      (hasKey em p.1 = true ∨ sc.contains p.1 = true) ∧
      (inExclude ex p.1 = true → p.1 = idc) := by
  intro p hp
  rcases finalMapping_pairs idc sc dc em ex p hp with ⟨h1, h2, h3, _⟩
  refine ⟨h1, h3, ?_⟩
  intro hex
  rcases h2 with h2 | h2
  · rw [h2] at hex; cases hex
  · rw [h2]

/-- Concrete instance of the amended mapping invariant. -/
theorem c3_mapping_amended_witness :
    (["a"] : List String).contains "a" = true ∧
    (hasKey ([("a", "a")] : List (String × String)) "a" = true ∨
      (["a"] : List String).contains "a" = true) ∧
    (inExclude [] "a" = true → "a" = "id") :=
  c3_mapping_amended "id" ["a"] ["a"] [("a", "a")] [] ("a", "a") (by decide)

/-- C4 counterexample: with the id column present in both schemas but
explicitly mapped to a different destination column (legacy_id), the
force-add step does not fire (the key is present) and the final mapping
does not map id to itself. -/
theorem c4_counterexample :
    (["id"] : List String).contains "id" = true ∧
    (["id", "legacy_id"] : List String).contains "id" = true ∧
    finalMapping "id" ["id"] ["id", "legacy_id"] [("id", "legacy_id")] [] =
      [("id", "legacy_id")] ∧
    lookupKV (finalMapping "id" ["id"] ["id", "legacy_id"]
      [("id", "legacy_id")] []) "id" ≠ some "id" := by
  refine ⟨rfl, rfl, rfl, ?_⟩
  intro h
  simp [lookupKV, finalMapping, build_mapping, insertKV, hasKey, inExclude] at h

/-- C4 amended: when the id column is in both schemas the final mapping
always contains it as a key, and it is mapped to itself whenever the
explicit map does not itself carry the id column as a key. -/
theorem c4_identity_amended (idc : String) (sc dc : List String)
    (em : List (String × String)) (ex : List String)
    (hsc : sc.contains idc = true) (hdc : dc.contains idc = true) :
    hasKey (finalMapping idc sc dc em ex) idc = true ∧
    (hasKey em idc = false →
      lookupKV (finalMapping idc sc dc em ex) idc = some idc) := by
  have hkey : hasKey (finalMapping idc sc dc em ex) idc = true := by
    unfold finalMapping
    split
    case isTrue _ => exact hasKey_insertKV_self _ idc idc
    case isFalse hcond =>
      simp only [Bool.and_eq_true, Bool.not_eq_true'] at hcond
      rcases Bool.eq_false_or_eq_true
        (hasKey (build_mapping sc dc em ex) idc) with h | h
      · exact h
      · exact absurd ⟨⟨h, hsc⟩, hdc⟩ hcond
  refine ⟨hkey, ?_⟩
  intro hem
  unfold hasKey at hkey
  rcases List.any_eq_true.mp hkey with ⟨q, hq, hqk⟩
  have hq1 : q.1 = idc := by simpa using hqk
  have hself : q.2 = q.1 :=
    (finalMapping_pairs idc sc dc em ex q hq).2.2.2 (by rw [hq1]; exact hem)
  unfold lookupKV
  cases hfind : (finalMapping idc sc dc em ex).find? (fun p => p.1 == idc) with
  | none =>
    rw [List.find?_eq_none] at hfind
    exact absurd hqk (hfind q hq)
  | some r =>
    have hr1 : r.1 = idc := by simpa using List.find?_some hfind
    have hrm : r ∈ finalMapping idc sc dc em ex := List.mem_of_find?_eq_some hfind
    have hrself : r.2 = r.1 :=
      (finalMapping_pairs idc sc dc em ex r hrm).2.2.2 (by rw [hr1]; exact hem)
    simp [hrself, hr1]

/-- Concrete instance of the amended identity-column theorem. -/
theorem c4_identity_amended_witness :
    hasKey (finalMapping "id" ["id"] ["id"] [] []) "id" = true ∧
    lookupKV (finalMapping "id" ["id"] ["id"] [] []) "id" = some "id" := by
  have h := c4_identity_amended "id" ["id"] ["id"] [] [] (by decide) (by decide)
  exact ⟨h.1, h.2 (by decide)⟩

/- ---------- C1 / C2 / C6: upsert_rows and the batch loop ---------- -/

/-- C1 counterexample: a one-row batch whose row already exists in the
destination is reported as inserted_count 1 under Skip although zero rows
are genuinely new (and the destination is left unchanged). -/
theorem c1_counterexample :
    (upsert_rows [[("id", Value.int 1)]] [("id", "id")] [[("id", Value.int 1)]]
      Policy.skip ["id"] false).1 =
      Except.ok ([[("id", Value.int 1)]], 1, 0) ∧
    newRowCount [[("id", Value.int 1)]] [("id", "id")] ["id"]
      [[("id", Value.int 1)]] = 0 ∧
    (1 : Nat) ≠ 0 :=
  ⟨rfl, rfl, by decide⟩

theorem skipFold_mem_mono (target : List String) (vals : List Row) :
    ∀ db : List Row, ∀ r ∈ db, r ∈ skipFold target db vals := by
  induction vals with
  | nil => intro db r hr; exact hr
  | cons v vs ih =>
    intro db r hr
    simp only [skipFold, List.foldl_cons]
    split
    · exact ih db r hr
    · exact ih (db ++ [v]) r (List.mem_append_left _ hr)

/-- C1 amended: under Skip in non-dry-run mode a non-empty batch returns
inserted_count equal to the total number of batch rows, conflicting or
not, while conflicting rows are skipped and every pre-existing
destination row is preserved. -/
theorem c1_skip_count (db : List Row) (mapping : List (String × String))
    (rows : List Row) (target : List String) (h : rows ≠ []) :
    (upsert_rows db mapping rows Policy.skip target false).1 =
      Except.ok (skipFold target db (rows.map (destRow mapping)),
        rows.length, 0) ∧
    ∀ r ∈ db, r ∈ skipFold target db (rows.map (destRow mapping)) := by
  constructor
  · unfold upsert_rows
    rw [if_neg (by simpa using h)]
    simp
  · exact fun r hr => skipFold_mem_mono target (rows.map (destRow mapping)) db r hr

/-- Concrete instance of the amended Skip-count theorem. -/
theorem c1_skip_count_witness :
    (upsert_rows [] [("id", "id")] [[("id", Value.int 1)]]
      Policy.skip ["id"] false).1 =
      Except.ok ([[("id", Value.int 1)]], 1, 0) := by
  have h := (c1_skip_count [] [("id", "id")] [[("id", Value.int 1)]] ["id"]
    (by decide)).1
  rw [h]
  rfl

/-- C6: with dryRun set, upsert_rows leaves the destination untouched and
returns (0, 0) for every policy and batch, while the projected row values
are still built for every non-empty batch. -/
theorem c6_dry_run_no_write (db : List Row) (mapping : List (String × String))
    (rows : List Row) (policy : Policy) (target : List String) :
    upsert_rows db mapping rows policy target true =
      (Except.ok (db, 0, 0),
        if rows.isEmpty then none else some (rows.map (destRow mapping))) := by
  by_cases h : rows.isEmpty <;> simp [upsert_rows, h]

theorem hasConflict_mono (db db2 : List Row) (target : List String) (v : Row)
    (hsub : ∀ r ∈ db, r ∈ db2) (h : hasConflict db target v = true) :
    hasConflict db2 target v = true := by
  rcases List.any_eq_true.mp h with ⟨e, he, hk⟩
  exact List.any_eq_true.mpr ⟨e, hsub e he, hk⟩

theorem errInsert_error_of_conflict (target : List String) :
    ∀ (vals : List Row) (db : List Row),
      (∃ v ∈ vals, hasConflict db target v = true) →
      errInsert target db vals = Except.error () := by
  intro vals
  induction vals with
  | nil =>
    intro db h
    rcases h with ⟨v, hv, _⟩
    cases hv
  | cons v vs ih =>
    intro db h
    by_cases hc : hasConflict db target v = true
    · simp [errInsert, hc]
    · rcases h with ⟨w, hw, hcw⟩
      rcases List.mem_cons.mp hw with rfl | hw2
      · exact absurd hcw hc
      · have hrec : errInsert target (db ++ [v]) vs = Except.error () :=
          ih (db ++ [v]) ⟨w, hw2, hasConflict_mono db (db ++ [v]) target w
            (fun r hr => List.mem_append_left _ hr) hcw⟩
        simp [errInsert, hc, hrec]

theorem upsert_error_of_conflict (db : List Row)
    (mapping : List (String × String)) (rows : List Row)
    (target : List String)
    (h : ∃ r ∈ rows, hasConflict db target (destRow mapping r) = true) :
    (upsert_rows db mapping rows Policy.error target false).1 =
      Except.error () := by
  have hne : rows ≠ [] := by
    rcases h with ⟨r, hr, _⟩
    intro he
    subst he
    cases hr
  have herr : errInsert target db (rows.map (destRow mapping)) =
      Except.error () := by
    rcases h with ⟨r, hr, hc⟩
    exact errInsert_error_of_conflict target _ db
      ⟨destRow mapping r, List.mem_map_of_mem _ hr, hc⟩
  unfold upsert_rows
  rw [if_neg (by simpa using hne)]
  simp [herr]

/-- C2: under the Error policy in non-dry-run mode, if every batch of
`pre` committed cleanly and the next batch holds a row conflicting with
the committed destination state, the whole run ends with exactly the
state and count the committed prefix produced — none of the failing
batch's rows is committed, later batches are not processed, and the
failure is surfaced through the aborted flag. -/
theorem c2_error_batch_atomic (mapping : List (String × String))
    (target : List String) (db : List Row) (pre : List (List Row))
    (b : List Row) (post : List (List Row)) (db2 : List Row) (n : Nat)
    (hpre : runBatches mapping Policy.error target false db pre =
      (db2, n, false))
    (hconf : ∃ r ∈ b, hasConflict db2 target (destRow mapping r) = true) :
    runBatches mapping Policy.error target false db (pre ++ b :: post) =
      (db2, n, true) := by
  induction pre generalizing db n with
  | nil =>
    simp only [runBatches, Prod.mk.injEq] at hpre
    obtain ⟨rfl, rfl, -⟩ := hpre
    simp only [List.nil_append, runBatches]
    rw [upsert_error_of_conflict db mapping b target hconf]
  | cons p ps ih =>
    simp only [runBatches] at hpre
    simp only [List.cons_append, runBatches]
    cases hup : (upsert_rows db mapping p Policy.error target false).1 with
    | error e =>
      rw [hup] at hpre
      simp at hpre
    | ok x =>
      rw [hup] at hpre
      obtain ⟨db1, ins, k⟩ := x
      simp only [Bool.false_eq_true, if_false] at hpre
      rcases hr : runBatches mapping Policy.error target false db1 ps with
        ⟨rdb, rn, rab⟩
      rw [hr] at hpre
      simp only [Prod.mk.injEq] at hpre
      obtain ⟨rfl, hn, rfl⟩ := hpre
      have hih := ih db1 rn hr
      dsimp only
      simp only [Bool.false_eq_true, if_false, List.append_eq]
      rw [hih]
      simp [hn]

/-- Concrete instance of the Error-policy batch atomicity theorem: one
committed batch, then the same row again in a second batch. -/
theorem c2_error_batch_atomic_witness :
    runBatches [("id", "id")] Policy.error ["id"] false []
      [[[("id", Value.int 1)]], [[("id", Value.int 1)]]] =
      ([[("id", Value.int 1)]], 1, true) := by
  have h := c2_error_batch_atomic [("id", "id")] ["id"] []
    [[[("id", Value.int 1)]]] [[("id", Value.int 1)]] []
    [[("id", Value.int 1)]] 1 (by rfl) (by decide)
  exact h

/- ---------- C7 / C8: asset transfer pipeline ---------- -/

theorem uploadPhase_total (args : XferArgs) (row : ImageRow)
    (localPath : String) (env : ItemEnv) (fileNow : Bool) (dl sk : Nat)
    (evs : List Event) :
    (uploadPhase args row localPath env fileNow dl sk evs).1.total = 1 := by
  unfold uploadPhase
  cases resolve_upload_url args row.artwork_id with
  | error msg => rfl
  | ok u =>
    dsimp only
    split
    · rfl
    · split
      · rfl
      · split
        · rfl
        · rfl

theorem processOne_total (args : XferArgs) (saveRoot : String)
    (row : ImageRow) (env : ItemEnv) :
    (processOne args saveRoot row env).1.total = 1 := by
  unfold processOne
  split
  · exact uploadPhase_total _ _ _ _ _ _ _ _
  · split
    · exact uploadPhase_total _ _ _ _ _ _ _ _
    · split
      · rfl
      · exact uploadPhase_total _ _ _ _ _ _ _ _

theorem uploadPhase_report (args : XferArgs) (row : ImageRow)
    (localPath : String) (env : ItemEnv) (fileNow : Bool) (dl sk : Nat)
    (evs : List Event) :
    ∀ rep, (uploadPhase args row localPath env fileNow dl sk evs).2.2 =
        some rep →
      rep.imageId = row.id ∧ rep.imagePath = row.image_path := by
  intro rep hrep
  unfold uploadPhase at hrep
  repeat' split at hrep
  all_goals
    first
      | exact Option.noConfusion hrep
      | (injection hrep with h; rw [← h]; exact ⟨rfl, rfl⟩)

theorem processOne_report (args : XferArgs) (saveRoot : String)
    (row : ImageRow) (env : ItemEnv) :
    ∀ rep, (processOne args saveRoot row env).2.2 = some rep →
      rep.imageId = row.id ∧ rep.imagePath = row.image_path := by
  intro rep hrep
  unfold processOne at hrep
  split at hrep
  · exact uploadPhase_report _ _ _ _ _ _ _ _ rep hrep
  · split at hrep
    · exact uploadPhase_report _ _ _ _ _ _ _ _ rep hrep
    · split at hrep
      · injection hrep with h
        rw [← h]
        exact ⟨rfl, rfl⟩
      · exact uploadPhase_report _ _ _ _ _ _ _ _ rep hrep

theorem combineR_assoc (a b c : Counters × List Event × List Report) :
    combineR (combineR a b) c = combineR a (combineR b c) := by
  simp [combineR, addCounters, Nat.add_assoc]

theorem runAll_append (args : XferArgs) (saveRoot : String)
    (l1 l2 : List (ImageRow × ItemEnv)) :
    runAll args saveRoot (l1 ++ l2) =
      combineR (runAll args saveRoot l1) (runAll args saveRoot l2) := by
  induction l1 with
  | nil =>
    simp only [List.nil_append]
    rcases hR : runAll args saveRoot l2 with ⟨⟨t, d, u, sk⟩, ev, re⟩
    simp [runAll, combineR, addCounters]
  | cons x xs ih =>
    rcases x with ⟨row, env⟩
    simp only [List.cons_append, runAll, List.append_eq, ih, combineR_assoc]

theorem runAll_total (args : XferArgs) (saveRoot : String)
    (l : List (ImageRow × ItemEnv)) :
    (runAll args saveRoot l).1.total = l.length := by
  induction l with
  | nil => rfl
  | cons x xs ih =>
    rcases x with ⟨row, env⟩
    simp [runAll, combineR, addCounters, oneResult, ih,
      processOne_total args saveRoot row env]
    omega

/-- C8: the loop's outcome over any items decomposes into the outcomes of
the stretches before, at and after any chosen item, so one item's failure
never affects another item and never aborts the loop: every item is
counted in total, a raised per-item error is reported with the failing
item's identity and path, and a failed download stops that item before
its upload. -/
theorem c8_failure_isolation (args : XferArgs) (saveRoot : String)
    (pre : List (ImageRow × ItemEnv)) (row : ImageRow) (env : ItemEnv)
    (post : List (ImageRow × ItemEnv)) :
    runAll args saveRoot (pre ++ (row, env) :: post) =
      combineR (runAll args saveRoot pre)
        (combineR (oneResult (processOne args saveRoot row env))
          (runAll args saveRoot post)) ∧
    (runAll args saveRoot (pre ++ (row, env) :: post)).1.total =
      pre.length + 1 + post.length ∧
    (∀ rep, (processOne args saveRoot row env).2.2 = some rep →
      rep.imageId = row.id ∧ rep.imagePath = row.image_path) ∧
    ((args.skipDownload && env.localExists) = false → args.dryRun = false →
      env.fetchCode ≠ 0 →
      processOne args saveRoot row env =
        (⟨1, 0, 0, 0⟩,
          [Event.fetch (joinUrlS args.fetchBase row.image_path)
            (pathJoin saveRoot row.image_path)],
          some ⟨row.id, row.image_path, "Download failed"⟩)) := by
  refine ⟨?_, ?_, processOne_report args saveRoot row env, ?_⟩
  · rw [runAll_append]
    rfl
  · rw [runAll_total]
    simp
    omega
  · intro hnd hdry hfc
    simp [processOne, hnd, hdry, hfc]

/-- Concrete instance of the failure-isolation theorem: a single asset
whose download curl exits non-zero. -/
theorem c8_failure_isolation_witness :
    (runAll ⟨"f", some "api", none, "ck", "image", "is_main_image",
        false, false, false⟩ "root"
      [(⟨7, "A", "p.jpg", true⟩, ⟨false, 1, 0⟩)]).1.total = 1 ∧
    (⟨7, "p.jpg", "Download failed"⟩ : Report).imageId = (7 : Nat) ∧
    (⟨7, "p.jpg", "Download failed"⟩ : Report).imagePath = "p.jpg" := by
  have h := c8_failure_isolation
    ⟨"f", some "api", none, "ck", "image", "is_main_image",
      false, false, false⟩ "root" [] ⟨7, "A", "p.jpg", true⟩ ⟨false, 1, 0⟩ []
  refine ⟨?_, h.2.2.1 ⟨7, "p.jpg", "Download failed"⟩ (by rfl)⟩
  have ht := h.2.1
  simpa using ht

/-- C7: with skip-download set, the local file already present and dry-run
off, processing an asset issues no fetch call, counts the asset as
skipped-download rather than downloaded, and still issues the upload call
for it whenever the upload URL resolves. -/
theorem c7_skip_download (args : XferArgs) (saveRoot : String)
    (row : ImageRow) (env : ItemEnv) (hskip : args.skipDownload = true)
    (hex : env.localExists = true) (hdry : args.dryRun = false) :
    (processOne args saveRoot row env).2.1.all (fun e => !(isFetch e)) =
      true ∧
    (processOne args saveRoot row env).1.skippedDownload = 1 ∧
    (processOne args saveRoot row env).1.downloaded = 0 ∧
    ∀ u, resolve_upload_url args row.artwork_id = Except.ok u →
      Event.post u (pathJoin saveRoot row.image_path) ∈
        (processOne args saveRoot row env).2.1 := by
  have hP : processOne args saveRoot row env =
      uploadPhase args row (pathJoin saveRoot row.image_path) env
        env.localExists 0 1 [] := by
    simp [processOne, hskip, hex]
  rw [hP]
  unfold uploadPhase
  cases hres : resolve_upload_url args row.artwork_id with
  | error msg =>
    refine ⟨rfl, rfl, rfl, ?_⟩
    intro u hu
    cases hu
  | ok u0 =>
    dsimp only
    rw [hdry]
    simp only [Bool.false_eq_true, if_false]
    split
    case isTrue h =>
      refine ⟨by simp [isFetch], rfl, rfl, ?_⟩
      intro u hu
      injection hu with h2
      rw [← h2]
      simp
    case isFalse h =>
      split
      case isTrue h3 =>
        refine ⟨by simp [isFetch], rfl, rfl, ?_⟩
        intro u hu
        injection hu with h2
        rw [← h2]
        simp
      case isFalse h3 =>
        refine ⟨by simp [isFetch], rfl, rfl, ?_⟩
        intro u hu
        injection hu with h2
        rw [← h2]
        simp

/-- Concrete instance of the skip-download theorem. -/
theorem c7_skip_download_witness :
    (processOne ⟨"f", some "api", none, "ck", "image", "is_main_image",
        false, true, false⟩ "root" ⟨7, "A", "p.jpg", true⟩
      ⟨true, 0, 0⟩).2.1.all (fun e => !(isFetch e)) = true ∧
    (processOne ⟨"f", some "api", none, "ck", "image", "is_main_image",
        false, true, false⟩ "root" ⟨7, "A", "p.jpg", true⟩
      ⟨true, 0, 0⟩).1.skippedDownload = 1 ∧
    (processOne ⟨"f", some "api", none, "ck", "image", "is_main_image",
        false, true, false⟩ "root" ⟨7, "A", "p.jpg", true⟩
      ⟨true, 0, 0⟩).1.downloaded = 0 ∧
    Event.post "api/artworks/A/images" "root/p.jpg" ∈
      (processOne ⟨"f", some "api", none, "ck", "image", "is_main_image",
        false, true, false⟩ "root" ⟨7, "A", "p.jpg", true⟩
      ⟨true, 0, 0⟩).2.1 := by
  have h := c7_skip_download
    ⟨"f", some "api", none, "ck", "image", "is_main_image",
      false, true, false⟩ "root" ⟨7, "A", "p.jpg", true⟩ ⟨true, 0, 0⟩
    rfl rfl rfl
  exact ⟨h.1, h.2.1, h.2.2.1, h.2.2.2 "api/artworks/A/images" rfl⟩
